import Mathlib

/-!
Verification of the `detour` whitelist (getlantern/detour).

The whitelist in `whitelist.go` keys everything by the host part of an
address (port stripped with `net.SplitHostPort`, falling back to the raw
address when splitting fails), keeps two maps `whitelist` and
`forceWhitelist` from host to a `permanent` flag, and answers membership
queries by walking the parent-domain chain of the queried host
(`getParentDomain` drops everything up to and including the first dot).

Strings are embedded as `List Char`; Go maps as association lists with
overwrite-on-insert semantics.
-/

namespace Detour

/-- Does the character list contain the character `c`? (Go `byteIndex(s, c) >= 0`.) -/
def containsChar (c : Char) : List Char → Bool
  | [] => false
  | a :: rest => if a = c then true else containsChar c rest

/-- Index of the first occurrence of `c` (Go `byteIndex`). -/
def idxOf (c : Char) : List Char → Option Nat
  | [] => none
  | a :: rest => if a = c then some 0 else (idxOf c rest).map (fun n => n + 1)

/-- Index of the last occurrence of `c` (Go `last(hostport, ':')`). -/
def lastIdxOf (c : Char) : List Char → Option Nat
  | [] => none
  | a :: rest =>
    match lastIdxOf c rest with
    | some i => some (i + 1)
    | none => if a = c then some 0 else none

/-- Embedding of Go `net.SplitHostPort`: `none` models the error return.
The port starts after the last colon; a leading `[` selects the bracketed
(IPv6-literal) form; stray brackets or extra colons are errors. -/
def splitHostPort (s : List Char) : Option (List Char × List Char) :=
  match lastIdxOf ':' s with
  | none => none
  | some i =>
    if s.head? = some '[' then
      match idxOf ']' s with
      | none => none
      | some e =>
        if e + 1 = s.length then none
        else if e + 1 = i then
          if containsChar '[' (s.drop 1) then none
          else if containsChar ']' (s.drop (e + 1)) then none
          else some ((s.take e).drop 1, s.drop (i + 1))
        else none
    else
      if containsChar ':' (s.take i) then none
      else if containsChar '[' s then none
      else if containsChar ']' s then none
      else some (s.take i, s.drop (i + 1))

/-- Embedding of `hostOnly` in whitelist.go: strip the port when
`SplitHostPort` succeeds, otherwise return the address unchanged. -/
def hostOnly (addr : List Char) : List Char :=
  match splitHostPort addr with
  | none => addr
  | some hp => hp.1

/-- A Go `map[string]wlEntry` as an association list; the `Bool` is the
`permanent` field of `wlEntry`. -/
abbrev WlMap := List (List Char × Bool)

/-- Map lookup: first binding of the key, if any. -/
def wlLookup (k : List Char) : WlMap → Option Bool
  | [] => none
  | (k₁, v) :: rest => if k₁ = k then some v else wlLookup k rest

/-- Map assignment `m[k] = v`: overwrite an existing binding or append. -/
def wlInsert (k : List Char) (v : Bool) : WlMap → WlMap
  | [] => [(k, v)]
  | (k₁, v₁) :: rest => if k₁ = k then (k, v) :: rest else (k₁, v₁) :: wlInsert k v rest

/-- Map `delete(m, k)`. -/
def wlErase (k : List Char) : WlMap → WlMap
  | [] => []
  | (k₁, v₁) :: rest => if k₁ = k then wlErase k rest else (k₁, v₁) :: wlErase k rest

/-- The two package-level maps of whitelist.go. -/
structure WlState where
  whitelist : WlMap
  forceWhitelist : WlMap

/-- Both maps empty (the initial `make(map[string]wlEntry)` state). -/
def emptyWl : WlState := ⟨[], []⟩

/-- Embedding of `ForceWhitelist`: `forceWhitelist[hostOnly(addr)] = wlEntry{true}`. -/
def ForceWhitelist (addr : List Char) (s : WlState) : WlState :=
  { s with forceWhitelist := wlInsert (hostOnly addr) true s.forceWhitelist }

/-- Embedding of `AddToWl`: `whitelist[hostOnly(addr)] = wlEntry{permanent}`. -/
def AddToWl (addr : List Char) (permanent : Bool) (s : WlState) : WlState :=
  { s with whitelist := wlInsert (hostOnly addr) permanent s.whitelist }

/-- Embedding of `RemoveFromWl`: `delete(whitelist, hostOnly(addr))`. -/
def RemoveFromWl (addr : List Char) (s : WlState) : WlState :=
  { s with whitelist := wlErase (hostOnly addr) s.whitelist }

/-- Embedding of `DumpWhitelist`: `wl = make([]string, 1)` creates a slice
already holding one zero-value string (the empty string), then the keys of
the permanent entries are appended. -/
def DumpWhitelist (s : WlState) : List (List Char) :=
  [[]] ++ (s.whitelist.filter (fun kv => kv.2)).map (fun kv => kv.1)

/-- Embedding of `getParentDomain`: `strings.SplitN(addr, ".", 2)` —
drop everything up to and including the first dot; the empty string when
there is no dot. -/
def getParentDomain : List Char → List Char
  | [] => []
  | c :: rest => if c = '.' then rest else getParentDomain rest

/-- Fuelled unfolding of the loop
`for addr := hostOnly(_addr); addr != ""; addr = getParentDomain(addr)`:
the list of values `addr` takes. -/
def wlChainAux : Nat → List Char → List (List Char)
  | 0, _ => []
  | n + 1, a => if a = [] then [] else a :: wlChainAux n (getParentDomain a)

/-- The parent-domain chain visited by `whitelisted`; `length + 1` fuel is
always sufficient because `getParentDomain` shrinks its argument. -/
def wlChain (a : List Char) : List (List Char) := wlChainAux (a.length + 1) a

/-- One iteration body of the loop in `whitelisted`: is `d` a key of
`forceWhitelist` or of `whitelist`? -/
def wlHit (s : WlState) (d : List Char) : Bool :=
  (wlLookup d s.forceWhitelist).isSome || (wlLookup d s.whitelist).isSome

/-- Embedding of `whitelisted`: walk the parent-domain chain of the
port-stripped address and report whether any element is a key of either map. -/
def whitelisted (s : WlState) (addr : List Char) : Bool :=
  (wlChain (hostOnly addr)).any (wlHit s)

/-- Embedding of `wlTemporarily`: exact (non-walking) lookup of the
port-stripped host, true only for a non-permanent entry. -/
def wlTemporarily (s : WlState) (addr : List Char) : Bool :=
  match wlLookup (hostOnly addr) s.whitelist with
  | some p => !p
  | none => false

/-- Split a host into its dot-separated labels (splitting on every dot,
so consecutive dots yield empty labels). -/
def splitDots : List Char → List (List Char)
  | [] => [[]]
  | c :: rest =>
    if c = '.' then [] :: splitDots rest
    else
      match splitDots rest with
      | [] => [[c]]
      | l :: ls => (c :: l) :: ls

/-- Modelled from the spec: the DomainMatcher of the radix-based whitelist
store, whose source file is not under src/ (only `TestRadixList` refers to
it). Keys are domain names stored with their label order reversed, e.g.
`com.facebook` for `facebook.com`, so that a whole-label prefix match on
the reversed labels expresses "this domain or any subdomain of it". -/
structure DomainMatcher where
  keys : List (List (List Char))

/-- A matcher with no entries; it matches nothing. -/
def DomainMatcher.empty : DomainMatcher := ⟨[]⟩

/-- The reversed label list of the port-stripped host. -/
def revLabels (host : List Char) : List (List Char) :=
  (splitDots (hostOnly host)).reverse

/-- Modelled from the spec: DomainMatcher `add` — insert the host in
reversed-label form, normalized (port stripped); idempotent. -/
def DomainMatcher.add (m : DomainMatcher) (host : List Char) : DomainMatcher :=
  if revLabels host ∈ m.keys then m else ⟨revLabels host :: m.keys⟩

/-- Does the first label list lead the second, whole label by whole label? -/
def labelsLe : List (List Char) → List (List Char) → Bool
  | [], _ => true
  | _ :: _, [] => false
  | a :: as, b :: bs => if a = b then labelsLe as bs else false

/-- Modelled from the spec: DomainMatcher `matchesPrefix` — true iff the
queried host equals, or is a subdomain of, some inserted entry: some stored
reversed-label key leads the query's reversed labels whole label by whole
label. -/
def DomainMatcher.prefixHit (m : DomainMatcher) (host : List Char) : Bool :=
  m.keys.any (fun k => labelsLe k (revLabels host))

/-- Modelled from the spec: DomainMatcher `containsExactly` — true iff the
host was inserted verbatim. -/
def DomainMatcher.exactHit (m : DomainMatcher) (host : List Char) : Bool :=
  decide (revLabels host ∈ m.keys)

/-- Modelled from the spec: the four overlays of the radix-based
WhitelistStore (not under src/). -/
structure Store4 where
  forceExclude : DomainMatcher
  forceInclude : DomainMatcher
  permanent : DomainMatcher
  temporary : DomainMatcher

/-- A store with all four overlays empty. -/
def Store4.empty : Store4 :=
  ⟨DomainMatcher.empty, DomainMatcher.empty, DomainMatcher.empty, DomainMatcher.empty⟩

/-- Modelled from the spec: `isDetourNeeded` — strip port, then evaluate
precedence forceExclude > forceInclude > permanent > temporary via the
prefix match; a forceExclude match short-circuits to false. -/
def isDetourNeeded (st : Store4) (addr : List Char) : Bool :=
  if st.forceExclude.prefixHit addr then false
  else if st.forceInclude.prefixHit addr then true
  else st.permanent.prefixHit addr || st.temporary.prefixHit addr

/-- Modelled from the spec: `forceUnwhitelist(host)` — the host is always
excluded from detour afterwards; managed by its own setter. -/
def forceUnwhitelist (addr : List Char) (st : Store4) : Store4 :=
  { st with forceExclude := st.forceExclude.add addr }

/-- Modelled from the spec: the DialOutcome classification of a direct
connection attempt (the dialer source is not under src/; only its tests are). -/
inductive DialOutcome
  | Success
  | DialFailed
  | DialTimedOut
  | ReadTimedOut
  | ReadFailed
  | ContentHijacked
  | DNSHijacked
deriving DecidableEq

/-- Which path serves the connection returned to the caller. -/
inductive RoutePath
  | direct
  | detour
deriving DecidableEq

/-- Result of resolving one dial attempt: the path serving the returned
connection (none when an error is surfaced instead), whether the original
error is surfaced to the caller, and the whitelist state afterwards. -/
structure DialResolution where
  conn : Option RoutePath
  errSurfaced : Bool
  state : WlState

/-- Modelled from the spec: the failure branch of the Classify-to-Resolved
step of the DetourDialer (its source is not under src/; only its tests are).
A failure outcome adds the host to the temporary whitelist (if not already
whitelisted) and satisfies the request via the detour path, except that
when the direct attempt has already irreversibly transmitted a
non-idempotent payload the original error is surfaced while the whitelist
update still takes effect. -/
def resolveFail (nonIdemWritten : Bool) (addr : List Char) (s : WlState) : DialResolution :=
  let s₁ := if whitelisted s addr then s else AddToWl addr false s
  if nonIdemWritten then ⟨none, true, s₁⟩ else ⟨some RoutePath.detour, false, s₁⟩

/-- Modelled from the spec: the full Classify-to-Resolved map — `Success`
returns the direct connection unchanged with no whitelist change; every
other outcome goes through the common failure branch `resolveFail`. -/
def resolveOutcome (o : DialOutcome) (nonIdemWritten : Bool) (addr : List Char)
    (s : WlState) : DialResolution :=
  match o with
  | .Success => ⟨some RoutePath.direct, false, s⟩
  | _ => resolveFail nonIdemWritten addr s

/-- The whitelist after `AddToWl("facebook.com", true)` from the empty state. -/
def wlFB : WlState := AddToWl ("facebook.com".toList) true emptyWl

/-- The whitelist after adding "a.com" permanently and "b.com" temporarily. -/
def wlAB : WlState :=
  AddToWl ("b.com:80".toList) false (AddToWl ("a.com:80".toList) true emptyWl)

/-- A four-overlay store whose forceExclude and forceInclude both hold "x.com". -/
def storeFX : Store4 :=
  { Store4.empty with
    forceExclude := DomainMatcher.empty.add ("x.com".toList),
    forceInclude := DomainMatcher.empty.add ("x.com".toList) }

theorem containsChar_append (c : Char) (xs ys : List Char) :
    containsChar c (xs ++ ys) = (containsChar c xs || containsChar c ys) := by
  induction xs with
  | nil => simp [containsChar]
  | cons a rest ih =>
    simp only [List.cons_append, containsChar]
    by_cases h : a = c <;> simp [h, ih]

theorem lastIdxOf_eq_none (c : Char) (p : List Char) (h : containsChar c p = false) :
    lastIdxOf c p = none := by
  induction p with
  | nil => rfl
  | cons a rest ih =>
    simp only [containsChar] at h
    by_cases h₁ : a = c
    · simp [h₁] at h
    · rw [if_neg h₁] at h
      simp [lastIdxOf, ih h, h₁]

theorem lastIdxOf_append_cons (c : Char) (h p : List Char) (hp : lastIdxOf c p = none) :
    lastIdxOf c (h ++ c :: p) = some h.length := by
  induction h with
  | nil => simp [lastIdxOf, hp]
  | cons a rest ih => simp [lastIdxOf, ih]

theorem take_length_append (h t : List Char) : (h ++ t).take h.length = h := by
  induction h with
  | nil => rfl
  | cons a rest ih => simp [ih]

theorem drop_length_append (h t : List Char) : (h ++ t).drop h.length = t := by
  induction h with
  | nil => rfl
  | cons a rest ih => simp [ih]

theorem hostOnly_no_colon (h : List Char) (hc : containsChar ':' h = false) :
    hostOnly h = h := by
  have hs : splitHostPort h = none := by
    unfold splitHostPort
    rw [lastIdxOf_eq_none ':' h hc]
  unfold hostOnly
  rw [hs]

theorem splitHostPort_append_port (h p : List Char)
    (hc : containsChar ':' h = false) (hb₁ : containsChar '[' h = false)
    (hb₂ : containsChar ']' h = false) (pc : containsChar ':' p = false)
    (pb₁ : containsChar '[' p = false) (pb₂ : containsChar ']' p = false) :
    splitHostPort (h ++ ':' :: p) = some (h, p) := by
  have hlast : lastIdxOf ':' (h ++ ':' :: p) = some h.length :=
    lastIdxOf_append_cons ':' h p (lastIdxOf_eq_none ':' p pc)
  have hhead : ¬ (h ++ ':' :: p).head? = some '[' := by
    cases h with
    | nil => simp
    | cons a rest =>
      simp only [containsChar] at hb₁
      by_cases ha : a = '['
      · simp [ha] at hb₁
      · simp [ha]
  have htake : (h ++ ':' :: p).take h.length = h := take_length_append h (':' :: p)
  have hdrop : (h ++ ':' :: p).drop (h.length + 1) = p := by
    have : h ++ ':' :: p = (h ++ [':']) ++ p := by simp
    rw [this, show h.length + 1 = (h ++ [':']).length by simp]
    exact drop_length_append (h ++ [':']) p
  have hl : containsChar '[' (h ++ ':' :: p) = false := by
    rw [containsChar_append, hb₁]
    simpa [containsChar] using pb₁
  have hr : containsChar ']' (h ++ ':' :: p) = false := by
    rw [containsChar_append, hb₂]
    simpa [containsChar] using pb₂
  unfold splitHostPort
  rw [hlast]
  dsimp only
  rw [if_neg hhead, htake]
  rw [hc, hl, hr]
  simp [hdrop]

theorem hostOnly_append_port (h p : List Char)
    (hc : containsChar ':' h = false) (hb₁ : containsChar '[' h = false)
    (hb₂ : containsChar ']' h = false) (pc : containsChar ':' p = false)
    (pb₁ : containsChar '[' p = false) (pb₂ : containsChar ']' p = false) :
    hostOnly (h ++ ':' :: p) = h := by
  unfold hostOnly
  rw [splitHostPort_append_port h p hc hb₁ hb₂ pc pb₁ pb₂]

theorem wlLookup_insert_self (k : List Char) (v : Bool) (m : WlMap) :
    wlLookup k (wlInsert k v m) = some v := by
  induction m with
  | nil => simp [wlInsert, wlLookup]
  | cons kv rest ih =>
    obtain ⟨k₁, v₁⟩ := kv
    by_cases h : k₁ = k
    · simp [wlInsert, h, wlLookup]
    · simp [wlInsert, h, wlLookup, ih]

theorem wlLookup_insert_ne (k d : List Char) (v : Bool) (m : WlMap) (hne : d ≠ k) :
    wlLookup d (wlInsert k v m) = wlLookup d m := by
  induction m with
  | nil => simp [wlInsert, wlLookup, Ne.symm hne]
  | cons kv rest ih =>
    obtain ⟨k₁, v₁⟩ := kv
    by_cases h : k₁ = k
    · subst h
      simp [wlInsert, wlLookup, Ne.symm hne]
    · simp only [wlInsert, if_neg h, wlLookup]
      by_cases h₂ : k₁ = d <;> simp [h₂, ih]

theorem wlLookup_erase_self (k : List Char) (m : WlMap) :
    wlLookup k (wlErase k m) = none := by
  induction m with
  | nil => rfl
  | cons kv rest ih =>
    obtain ⟨k₁, v₁⟩ := kv
    by_cases h : k₁ = k
    · simp [wlErase, h, ih]
    · simp [wlErase, h, wlLookup, ih]

theorem wlLookup_erase_ne (k d : List Char) (m : WlMap) (hne : d ≠ k) :
    wlLookup d (wlErase k m) = wlLookup d m := by
  induction m with
  | nil => rfl
  | cons kv rest ih =>
    obtain ⟨k₁, v₁⟩ := kv
    by_cases h : k₁ = k
    · subst h
      simp [wlErase, wlLookup, ih, Ne.symm hne]
    · simp only [wlErase, if_neg h, wlLookup]
      by_cases h₂ : k₁ = d <;> simp [h₂, ih]

theorem isSome_wlLookup_insert (k d : List Char) (v : Bool) (m : WlMap)
    (h : (wlLookup d m).isSome = true) : (wlLookup d (wlInsert k v m)).isSome = true := by
  by_cases hdk : d = k
  · subst hdk
    rw [wlLookup_insert_self]
    rfl
  · rw [wlLookup_insert_ne k d v m hdk]
    exact h

theorem getParentDomain_length_lt (a : List Char) (h : a ≠ []) :
    (getParentDomain a).length < a.length := by
  induction a with
  | nil => exact absurd rfl h
  | cons c rest ih =>
    simp only [getParentDomain, List.length_cons]
    by_cases hc : c = '.'
    · rw [if_pos hc]
      exact Nat.lt_succ_self _
    · rw [if_neg hc]
      by_cases h₀ : rest = []
      · subst h₀
        simp [getParentDomain]
      · exact Nat.lt_succ_of_lt (ih h₀)

theorem wlChainAux_congr (n₁ : Nat) : ∀ (n₂ : Nat) (a : List Char),
    a.length < n₁ → a.length < n₂ → wlChainAux n₁ a = wlChainAux n₂ a := by
  induction n₁ with
  | zero =>
    intro n₂ a h₁ _
    exact absurd h₁ (Nat.not_lt_zero _)
  | succ m₁ ih =>
    intro n₂ a h₁ h₂
    cases n₂ with
    | zero => exact absurd h₂ (Nat.not_lt_zero _)
    | succ m₂ =>
      by_cases ha : a = []
      · subst ha
        simp [wlChainAux]
      · simp only [wlChainAux, if_neg ha]
        have hg := getParentDomain_length_lt a ha
        rw [ih m₂ (getParentDomain a)
          (Nat.lt_of_lt_of_le hg (Nat.le_of_lt_succ h₁))
          (Nat.lt_of_lt_of_le hg (Nat.le_of_lt_succ h₂))]

theorem wlChain_nil : wlChain [] = [] := rfl

theorem wlChain_cons (a : List Char) (h : a ≠ []) :
    wlChain a = a :: wlChain (getParentDomain a) := by
  have hg := getParentDomain_length_lt a h
  unfold wlChain
  conv =>
    lhs
    rw [wlChainAux]
  rw [if_neg h]
  rw [wlChainAux_congr a.length ((getParentDomain a).length + 1) (getParentDomain a) hg
    (Nat.lt_succ_self _)]

theorem mem_wlChain_self (a : List Char) (h : a ≠ []) : a ∈ wlChain a := by
  rw [wlChain_cons a h]
  exact List.mem_cons_self a _

theorem mem_wlChain_append_dot (sub : List Char) : ∀ (d : List Char), d ≠ [] →
    d ∈ wlChain (sub ++ '.' :: d) := by
  induction sub with
  | nil =>
    intro d hd
    rw [List.nil_append, wlChain_cons _ (by simp)]
    have hg : getParentDomain ('.' :: d) = d := by simp [getParentDomain]
    rw [hg]
    exact List.mem_cons_of_mem _ (mem_wlChain_self d hd)
  | cons c sub ih =>
    intro d hd
    have hne : (c :: sub) ++ '.' :: d ≠ [] := by simp
    rw [wlChain_cons _ hne]
    apply List.mem_cons_of_mem
    by_cases hc : c = '.'
    · have hg : getParentDomain ((c :: sub) ++ '.' :: d) = sub ++ '.' :: d := by
        simp [getParentDomain, hc]
      rw [hg]
      exact ih d hd
    · have hg : getParentDomain ((c :: sub) ++ '.' :: d) =
          getParentDomain (sub ++ '.' :: d) := by
        simp [getParentDomain, hc]
      rw [hg]
      have h₂ := ih d hd
      rw [wlChain_cons _ (by simp)] at h₂
      rcases List.mem_cons.mp h₂ with heq | hmem
      · exfalso
        have hlen := congrArg List.length heq
        simp at hlen
        omega
      · exact hmem

theorem whitelisted_of_mem (s : WlState) (a d : List Char)
    (hd : d ∈ wlChain (hostOnly a)) (hh : wlHit s d = true) :
    whitelisted s a = true := by
  unfold whitelisted
  exact List.any_eq_true.mpr ⟨d, hd, hh⟩

theorem whitelisted_congr (s : WlState) (a b : List Char) (h : hostOnly a = hostOnly b) :
    whitelisted s a = whitelisted s b := by
  unfold whitelisted
  rw [h]

theorem gpd_iterate (n : Nat) : ∀ a : List Char, a.length ≤ n →
    getParentDomain^[n] a = [] := by
  induction n with
  | zero =>
    intro a h
    have ha := List.eq_nil_of_length_eq_zero (Nat.le_zero.mp h)
    subst ha
    rfl
  | succ m ih =>
    intro a h
    rw [Function.iterate_succ_apply]
    by_cases ha : a = []
    · subst ha
      exact ih [] (Nat.zero_le m)
    · exact ih _ (Nat.le_of_lt_succ (Nat.lt_of_lt_of_le (getParentDomain_length_lt a ha) h))

theorem wlChain_length_le (n : Nat) : ∀ a : List Char, a.length ≤ n →
    (wlChain a).length ≤ a.length := by
  induction n with
  | zero =>
    intro a h
    have ha := List.eq_nil_of_length_eq_zero (Nat.le_zero.mp h)
    subst ha
    simp [wlChain_nil]
  | succ m ih =>
    intro a h
    by_cases ha : a = []
    · subst ha
      simp [wlChain_nil]
    · rw [wlChain_cons a ha]
      have hg := getParentDomain_length_lt a ha
      have h₂ : (wlChain (getParentDomain a)).length ≤ (getParentDomain a).length :=
        ih _ (Nat.le_of_lt_succ (Nat.lt_of_lt_of_le hg h))
      simp only [List.length_cons]
      omega

/-- Claim C10: the parent-domain walk in `whitelisted` terminates for every
input string — `getParentDomain` returns either the empty string or a
string strictly shorter than its argument, the chain of values visited by
the loop has at most length-of-input elements, and iterating
`getParentDomain` length-of-input times always reaches the empty string
(including inputs with no dots, leading dots, or consecutive dots). -/
theorem c10_termination (a : List Char) :
    (getParentDomain a = [] ∨ (getParentDomain a).length < a.length)
    ∧ (wlChain a).length ≤ a.length
    ∧ getParentDomain^[a.length] a = [] := by
  refine ⟨?_, wlChain_length_le a.length a (Nat.le_refl _),
    gpd_iterate a.length a (Nat.le_refl _)⟩
  by_cases ha : a = []
  · subst ha
    exact Or.inl rfl
  · exact Or.inr (getParentDomain_length_lt a ha)

/-- Claim C1: after adding "facebook.com" to the whitelist, `whitelisted`
reports true for "facebook.com" itself and for every subdomain — any
host of the form sub.facebook.com, with or without a port — and reports
false for hosts such as "notfacebook.com" or "facebookx.com" that share
only a string suffix, not a whole-label suffix. -/
theorem c1_label_boundaries :
    whitelisted wlFB ("facebook.com".toList) = true
    ∧ (∀ sub : List Char, containsChar ':' sub = false →
        whitelisted wlFB (sub ++ '.' :: "facebook.com".toList) = true)
    ∧ (∀ sub p : List Char, containsChar ':' sub = false →
        containsChar '[' sub = false → containsChar ']' sub = false →
        containsChar ':' p = false → containsChar '[' p = false →
        containsChar ']' p = false →
        whitelisted wlFB ((sub ++ '.' :: "facebook.com".toList) ++ ':' :: p) = true)
    ∧ whitelisted wlFB ("facebook.com:443".toList) = true
    ∧ whitelisted wlFB ("notfacebook.com".toList) = false
    ∧ whitelisted wlFB ("facebookx.com".toList) = false := by
  refine ⟨by decide, ?_, ?_, by decide, by decide, by decide⟩
  · intro sub hsub
    have hfull : containsChar ':' (sub ++ '.' :: "facebook.com".toList) = false := by
      rw [containsChar_append, hsub]
      simp only [Bool.false_or]
      decide
    have hid := hostOnly_no_colon _ hfull
    apply whitelisted_of_mem wlFB _ ("facebook.com".toList)
    · rw [hid]
      exact mem_wlChain_append_dot sub _ (by decide)
    · decide
  · intro sub p h₁ h₂ h₃ h₄ h₅ h₆
    have hcs : containsChar ':' (sub ++ '.' :: "facebook.com".toList) = false := by
      rw [containsChar_append, h₁]
      simp only [Bool.false_or]
      decide
    have hbs₁ : containsChar '[' (sub ++ '.' :: "facebook.com".toList) = false := by
      rw [containsChar_append, h₂]
      simp only [Bool.false_or]
      decide
    have hbs₂ : containsChar ']' (sub ++ '.' :: "facebook.com".toList) = false := by
      rw [containsChar_append, h₃]
      simp only [Bool.false_or]
      decide
    have hid := hostOnly_append_port _ p hcs hbs₁ hbs₂ h₄ h₅ h₆
    apply whitelisted_of_mem wlFB _ ("facebook.com".toList)
    · rw [hid]
      exact mem_wlChain_append_dot sub _ (by decide)
    · decide

/-- Witness for C1 at sub = "www" (no port) and sub = "sub" with port "80". -/
theorem c1_witness :
    whitelisted wlFB ("www".toList ++ '.' :: "facebook.com".toList) = true
    ∧ whitelisted wlFB
        (("sub".toList ++ '.' :: "facebook.com".toList) ++ ':' :: "80".toList) = true :=
  ⟨c1_label_boundaries.2.1 ("www".toList) (by decide),
   c1_label_boundaries.2.2.1 ("sub".toList) ("80".toList) (by decide) (by decide)
     (by decide) (by decide) (by decide) (by decide)⟩

/-- Claim C3 (code bug): after adding "a.com" permanently and "b.com"
temporarily, `DumpWhitelist` does contain "a.com" and not "b.com", but it
is not made up of the permanent hosts alone — `make([]string, 1)` seeds the
returned slice with one empty string, so the dump also contains the empty
string, which was never added. -/
theorem c3_dump_has_empty_string :
    DumpWhitelist wlAB = [[], "a.com".toList]
    ∧ "a.com".toList ∈ DumpWhitelist wlAB
    ∧ "b.com".toList ∉ DumpWhitelist wlAB
    ∧ [] ∈ DumpWhitelist wlAB := by
  exact ⟨by decide, by decide, by decide, by decide⟩

/-- Counterexample to Claim C5 as stated: a host that entered via
`ForceWhitelist` is still reported whitelisted after `RemoveFromWl` of the
same host, because `RemoveFromWl` deletes only from the `whitelist` map. -/
theorem c5_counterexample :
    whitelisted (RemoveFromWl ("x.com".toList) (ForceWhitelist ("x.com".toList) emptyWl))
      ("x.com".toList) = true := by decide

/-- Claim C5 (amended): after `RemoveFromWl h`, the host `h` is no longer
reported whitelisted by `whitelisted`, provided no element of the
parent-domain chain of `h` is in the force-whitelist and no proper parent
in the chain is in the mutable whitelist (a force-whitelisted entry or a
whitelisted parent domain still reports `h` whitelisted). -/
theorem c5_remove_unlisted (s : WlState) (h : List Char)
    (hforce : ∀ d ∈ wlChain (hostOnly h), wlLookup d s.forceWhitelist = none)
    (hwl : ∀ d ∈ wlChain (hostOnly h), d ≠ hostOnly h → wlLookup d s.whitelist = none) :
    whitelisted (RemoveFromWl h s) h = false := by
  unfold whitelisted
  rw [List.any_eq_false]
  intro d hd
  have hgoal : wlHit (RemoveFromWl h s) d = false := by
    unfold wlHit
    simp only [RemoveFromWl]
    rw [hforce d hd]
    by_cases hdh : d = hostOnly h
    · subst hdh
      rw [wlLookup_erase_self]
      rfl
    · rw [wlLookup_erase_ne _ _ _ hdh, hwl d hd hdh]
      rfl
  simp [hgoal]

/-- Witness for the amended C5: a host added only temporarily, with no
whitelisted parent, is not whitelisted after removal. -/
theorem c5_witness :
    whitelisted (RemoveFromWl ("x.com".toList) (AddToWl ("x.com".toList) false emptyWl))
      ("x.com".toList) = false :=
  c5_remove_unlisted (AddToWl ("x.com".toList) false emptyWl) ("x.com".toList)
    (by decide) (by decide)

theorem whitelisted_empty_host (s : WlState) (a : List Char) (h : hostOnly a = []) :
    whitelisted s a = false := by
  unfold whitelisted
  rw [h, wlChain_nil]
  rfl

/-- Claim C6: generic removal does not modify the force overlay — for every
host, `RemoveFromWl` leaves `forceWhitelist` unchanged, so a host that was
reported whitelisted after `ForceWhitelist` is still reported whitelisted
after `RemoveFromWl` of the same host. -/
theorem c6_remove_preserves_force (s : WlState) (h h₁ : List Char) :
    (RemoveFromWl h₁ s).forceWhitelist = s.forceWhitelist
    ∧ (whitelisted (ForceWhitelist h s) h = true →
        whitelisted (RemoveFromWl h (ForceWhitelist h s)) h = true) := by
  refine ⟨rfl, ?_⟩
  intro hw
  have hne : hostOnly h ≠ [] := by
    intro h₀
    rw [whitelisted_empty_host _ h h₀] at hw
    exact Bool.false_ne_true hw
  apply whitelisted_of_mem _ h (hostOnly h) (mem_wlChain_self _ hne)
  unfold wlHit
  have hl : wlLookup (hostOnly h)
      (RemoveFromWl h (ForceWhitelist h s)).forceWhitelist = some true := by
    show wlLookup (hostOnly h) (wlInsert (hostOnly h) true s.forceWhitelist) = some true
    exact wlLookup_insert_self _ _ _
  rw [hl]
  rfl

/-- Witness for C6: force-whitelist then remove "x.com" from the empty state. -/
theorem c6_witness :
    whitelisted (RemoveFromWl ("x.com".toList) (ForceWhitelist ("x.com".toList) emptyWl))
      ("x.com".toList) = true :=
  (c6_remove_preserves_force emptyWl ("x.com".toList) ("y.com".toList)).2 (by decide)

/-- Claim C7: `wlTemporarily` is true exactly when the port-stripped host is
stored as an exact, non-permanent entry: a host added with permanent=true
yields false, and a host whose exact entry is absent (such as a subdomain of
a temporarily whitelisted domain) also yields false. -/
theorem c7_temporary_exact :
    (∀ (s : WlState) (a : List Char),
      wlTemporarily s a = true ↔ wlLookup (hostOnly a) s.whitelist = some false)
    ∧ (∀ (s : WlState) (d a : List Char), hostOnly a = hostOnly d →
        wlTemporarily (AddToWl d true s) a = false)
    ∧ (∀ (s : WlState) (a : List Char),
        wlLookup (hostOnly a) s.whitelist = none → wlTemporarily s a = false) := by
  refine ⟨?_, ?_, ?_⟩
  · intro s a
    unfold wlTemporarily
    cases hv : wlLookup (hostOnly a) s.whitelist with
    | none => simp
    | some p => cases p <;> simp
  · intro s d a hda
    unfold wlTemporarily AddToWl
    simp only
    rw [hda, wlLookup_insert_self]
    rfl
  · intro s a hnone
    unfold wlTemporarily
    rw [hnone]

/-- Witness for C7: a permanently added host is not reported temporary. -/
theorem c7_witness :
    wlTemporarily (AddToWl ("a.com".toList) true emptyWl) ("a.com".toList) = false :=
  c7_temporary_exact.2.1 emptyWl ("a.com".toList) ("a.com".toList) rfl

/-- Claim C8: every whitelist operation is invariant under the port portion
of an address — adding, force-adding or removing "h:p" equals the same
operation on "h", and `whitelisted`/`wlTemporarily` agree on "h:p", "h:q"
and "h", because host:port is stripped to host before any lookup or storage. -/
theorem c8_port_invariance (h p q : List Char) (b : Bool) (s : WlState)
    (hc : containsChar ':' h = false) (hb₁ : containsChar '[' h = false)
    (hb₂ : containsChar ']' h = false)
    (pc : containsChar ':' p = false) (pb₁ : containsChar '[' p = false)
    (pb₂ : containsChar ']' p = false)
    (qc : containsChar ':' q = false) (qb₁ : containsChar '[' q = false)
    (qb₂ : containsChar ']' q = false) :
    AddToWl (h ++ ':' :: p) b s = AddToWl h b s
    ∧ ForceWhitelist (h ++ ':' :: p) s = ForceWhitelist h s
    ∧ RemoveFromWl (h ++ ':' :: p) s = RemoveFromWl h s
    ∧ whitelisted s (h ++ ':' :: p) = whitelisted s h
    ∧ whitelisted s (h ++ ':' :: p) = whitelisted s (h ++ ':' :: q)
    ∧ wlTemporarily s (h ++ ':' :: p) = wlTemporarily s h := by
  have hp := hostOnly_append_port h p hc hb₁ hb₂ pc pb₁ pb₂
  have hq := hostOnly_append_port h q hc hb₁ hb₂ qc qb₁ qb₂
  have hh := hostOnly_no_colon h hc
  refine ⟨?_, ?_, ?_, ?_, ?_, ?_⟩
  · unfold AddToWl
    rw [hp, hh]
  · unfold ForceWhitelist
    rw [hp, hh]
  · unfold RemoveFromWl
    rw [hp, hh]
  · exact whitelisted_congr s _ _ (by rw [hp, hh])
  · exact whitelisted_congr s _ _ (by rw [hp, hq])
  · unfold wlTemporarily
    rw [hp, hh]

/-- Witness for C8 at h = "a.com", p = "80", q = "443". -/
theorem c8_witness :
    AddToWl ("a.com".toList ++ ':' :: "80".toList) true emptyWl
      = AddToWl ("a.com".toList) true emptyWl
    ∧ ForceWhitelist ("a.com".toList ++ ':' :: "80".toList) emptyWl
      = ForceWhitelist ("a.com".toList) emptyWl
    ∧ RemoveFromWl ("a.com".toList ++ ':' :: "80".toList) emptyWl
      = RemoveFromWl ("a.com".toList) emptyWl
    ∧ whitelisted emptyWl ("a.com".toList ++ ':' :: "80".toList)
      = whitelisted emptyWl ("a.com".toList)
    ∧ whitelisted emptyWl ("a.com".toList ++ ':' :: "80".toList)
      = whitelisted emptyWl ("a.com".toList ++ ':' :: "443".toList)
    ∧ wlTemporarily emptyWl ("a.com".toList ++ ':' :: "80".toList)
      = wlTemporarily emptyWl ("a.com".toList) :=
  c8_port_invariance ("a.com".toList) ("80".toList) ("443".toList) true emptyWl
    (by decide) (by decide) (by decide) (by decide) (by decide) (by decide)
    (by decide) (by decide) (by decide)

/-- Claim C9: whitelist membership is monotone under additions — any address
reported whitelisted stays whitelisted after any further `AddToWl` (with
either permanent flag, including overwriting an existing entry's flag) or
`ForceWhitelist`. -/
theorem c9_monotone (s : WlState) (a h : List Char) (b : Bool)
    (hw : whitelisted s a = true) :
    whitelisted (AddToWl h b s) a = true
    ∧ whitelisted (ForceWhitelist h s) a = true := by
  unfold whitelisted at hw
  obtain ⟨d, hd, hhit⟩ := List.any_eq_true.mp hw
  constructor
  · apply whitelisted_of_mem _ a d hd
    unfold wlHit at hhit ⊢
    simp only [AddToWl]
    simp only [Bool.or_eq_true] at hhit ⊢
    rcases hhit with hf | hw₂
    · exact Or.inl hf
    · exact Or.inr (isSome_wlLookup_insert _ _ _ _ hw₂)
  · apply whitelisted_of_mem _ a d hd
    unfold wlHit at hhit ⊢
    simp only [ForceWhitelist]
    simp only [Bool.or_eq_true] at hhit ⊢
    rcases hhit with hf | hw₂
    · exact Or.inl (isSome_wlLookup_insert _ _ _ _ hf)
    · exact Or.inr hw₂

/-- Witness for C9: "a.com" stays whitelisted after adding "b.com". -/
theorem c9_witness :
    whitelisted (AddToWl ("b.com".toList) false (AddToWl ("a.com".toList) true emptyWl))
      ("a.com".toList) = true
    ∧ whitelisted (ForceWhitelist ("b.com".toList) (AddToWl ("a.com".toList) true emptyWl))
      ("a.com".toList) = true :=
  c9_monotone (AddToWl ("a.com".toList) true emptyWl) ("a.com".toList)
    ("b.com".toList) false (by decide)

theorem resolveOutcome_ne_success (o : DialOutcome) (w : Bool) (addr : List Char)
    (s : WlState) (ho : o ≠ DialOutcome.Success) :
    resolveOutcome o w addr s = resolveFail w addr s := by
  cases o with
  | Success => exact absurd rfl ho
  | DialFailed => rfl
  | DialTimedOut => rfl
  | ReadTimedOut => rfl
  | ReadFailed => rfl
  | ContentHijacked => rfl
  | DNSHijacked => rfl

theorem resolveFail_state (w : Bool) (addr : List Char) (s : WlState) :
    (resolveFail w addr s).state
      = if whitelisted s addr then s else AddToWl addr false s := by
  unfold resolveFail
  cases w <;> rfl

/-- Claim C2: every direct-path failure outcome (dial failed, dial timed
out, read timed out, read failed, content hijacked, DNS hijacked) adds the
target host to the temporary whitelist and satisfies the request via the
detour path without surfacing an error — except when a non-idempotent
payload was already written, in which case the original error is surfaced
while the whitelist update still takes effect. -/
theorem c2_failure_outcomes (o : DialOutcome) (w : Bool) (addr : List Char)
    (s : WlState) (ho : o ≠ DialOutcome.Success) :
    (whitelisted s addr = false →
      wlTemporarily (resolveOutcome o w addr s).state addr = true)
    ∧ (w = false → (resolveOutcome o w addr s).conn = some RoutePath.detour
        ∧ (resolveOutcome o w addr s).errSurfaced = false)
    ∧ (w = true → (resolveOutcome o w addr s).errSurfaced = true)
    ∧ (whitelisted s addr = true → (resolveOutcome o w addr s).state = s) := by
  rw [resolveOutcome_ne_success o w addr s ho]
  refine ⟨?_, ?_, ?_, ?_⟩
  · intro hnw
    rw [resolveFail_state, hnw]
    simp only [Bool.false_eq_true, if_false]
    unfold wlTemporarily AddToWl
    simp only
    rw [wlLookup_insert_self]
    rfl
  · intro hw₀
    subst hw₀
    unfold resolveFail
    exact ⟨rfl, rfl⟩
  · intro hw₁
    subst hw₁
    unfold resolveFail
    rfl
  · intro hyes
    rw [resolveFail_state, hyes]
    rfl

/-- Witness for C2: a dial timeout on "255.0.0.1" from the empty whitelist
state leaves the host temporary-whitelisted and the request served by detour. -/
theorem c2_witness :
    wlTemporarily
      (resolveOutcome DialOutcome.DialTimedOut false ("255.0.0.1".toList) emptyWl).state
      ("255.0.0.1".toList) = true
    ∧ (resolveOutcome DialOutcome.DialTimedOut false ("255.0.0.1".toList) emptyWl).conn
      = some RoutePath.detour :=
  ⟨(c2_failure_outcomes DialOutcome.DialTimedOut false ("255.0.0.1".toList) emptyWl
      (by decide)).1 (by decide),
   ((c2_failure_outcomes DialOutcome.DialTimedOut false ("255.0.0.1".toList) emptyWl
      (by decide)).2.1 rfl).1⟩

theorem labelsLe_refl (l : List (List Char)) : labelsLe l l = true := by
  induction l with
  | nil => rfl
  | cons a as ih => simp [labelsLe, ih]

theorem prefixHit_add_self (m : DomainMatcher) (a : List Char) :
    (m.add a).prefixHit a = true := by
  unfold DomainMatcher.add DomainMatcher.prefixHit
  by_cases hmem : revLabels a ∈ m.keys
  · rw [if_pos hmem]
    exact List.any_eq_true.mpr ⟨revLabels a, hmem, labelsLe_refl _⟩
  · rw [if_neg hmem]
    exact List.any_eq_true.mpr ⟨revLabels a, List.mem_cons_self _ _, labelsLe_refl _⟩

/-- Claim C4: the four-overlay lookup obeys the precedence
forceExclude > forceInclude > permanent > temporary — a forceExclude match
makes `isDetourNeeded` false regardless of the other overlays, a host
passed to `forceUnwhitelist` is always excluded from detour, and a
forceInclude match wins over the permanent and temporary overlays. -/
theorem c4_overlay_precedence (st : Store4) (a : List Char) :
    (st.forceExclude.prefixHit a = true → isDetourNeeded st a = false)
    ∧ isDetourNeeded (forceUnwhitelist a st) a = false
    ∧ (st.forceExclude.prefixHit a = false → st.forceInclude.prefixHit a = true →
        isDetourNeeded st a = true) := by
  refine ⟨?_, ?_, ?_⟩
  · intro hx
    unfold isDetourNeeded
    simp [hx]
  · unfold isDetourNeeded forceUnwhitelist
    simp [prefixHit_add_self]
  · intro hx hi
    unfold isDetourNeeded
    simp [hx, hi]

/-- Witness for C4: "x.com" in both force overlays is excluded (even queried
as a subdomain with a port), while forceInclude alone forces detour. -/
theorem c4_witness :
    isDetourNeeded storeFX ("www.x.com:80".toList) = false
    ∧ isDetourNeeded
        { Store4.empty with forceInclude := DomainMatcher.empty.add ("x.com".toList) }
        ("www.x.com".toList) = true :=
  ⟨(c4_overlay_precedence storeFX ("www.x.com:80".toList)).1 (by decide),
   (c4_overlay_precedence
      { Store4.empty with forceInclude := DomainMatcher.empty.add ("x.com".toList) }
      ("www.x.com".toList)).2.2 (by decide) (by decide)⟩

end Detour
